import Mathlib

/-!
Shallow embedding of the textcurve library (Go): TrueType glyph-outline
flattening, text layout with kerning/spacing, and alignment of the
resulting contours.  Coordinates are modelled over `ℚ`; the Go code's
`float64` arithmetic is represented by exact rational arithmetic.
Glyph data, font metric queries and the optional HarfBuzz shaper are
external collaborators of the library and are modelled as abstract
function fields of a `Font` / `ParsedFont` record, exactly as the
library consumes them.
-/

namespace Textcurve

/-- 2-D coordinate in model units (model2d.Coord). -/
structure Coord where
  x : ℚ
  y : ℚ
deriving DecidableEq, Repr

instance : Inhabited Coord := ⟨⟨0, 0⟩⟩

/-- model2d Coord.Scale: componentwise scale. -/
def Coord.scale (p : Coord) (s : ℚ) : Coord := ⟨p.x * s, p.y * s⟩

/-- model2d Coord.Add: componentwise sum. -/
def Coord.add (p q : Coord) : Coord := ⟨p.x + q.x, p.y + q.y⟩

/-- model2d Coord.Mid: midpoint of two coordinates. -/
def Coord.mid (p q : Coord) : Coord := ⟨(p.x + q.x) / 2, (p.y + q.y) / 2⟩

/-- truetype.Point: 26.6 fixed-point coordinates at the library's
`fixedScale` (1 font unit = 64), plus the flags byte. -/
structure TPoint where
  x : Int
  y : Int
  flags : Nat
deriving DecidableEq, Repr

instance : Inhabited TPoint := ⟨⟨0, 0, 0⟩⟩

/-- `p.Flags&0x01 != 0` in the Go source. -/
def TPoint.onCurve (p : TPoint) : Bool := p.flags % 2 == 1

abbrev Contour := List Coord
abbrev Outlines := List Contour

/-- `toVec` closure in flattenTrueTypeContour:
`x = (X/64 + penX) * scale`, `y = (Y/64) * scale`. -/
def toVec (penX scale : ℚ) (p : TPoint) : Coord :=
  ⟨((p.x : ℚ) / 64 + penX) * scale, ((p.y : ℚ) / 64) * scale⟩

/-- flattenQuad: evaluates the quadratic at `t = i/segs` for
`i = 1, ..., segs` (the Go loop `for i := 1; i <= segs; i++`). -/
def flattenQuad (p0 p1 p2 : Coord) (segs : Nat) : List Coord :=
  (List.range segs).map (fun (i : Nat) =>
    let t : ℚ := ((i : ℚ) + 1) / (segs : ℚ)
    let u : ℚ := 1 - t
    ((p0.scale (u * u)).add (p1.scale (2 * u * t))).add (p2.scale (t * t)))

/-- One iteration of the walk loop in flattenTrueTypeContour, acting on
the state (poly, prevOn, pending control). -/
def stepPoint (toV : TPoint → Coord) (segs : Nat)
    (st : Contour × Coord × Option Coord) (p : TPoint) :
    Contour × Coord × Option Coord :=
  match st with
  | (poly, prevOn, ctrl) =>
    if p.onCurve then
      let onPt := toV p
      match ctrl with
      | some c => (poly ++ flattenQuad prevOn c onPt segs, onPt, none)
      | none => (poly ++ [onPt], onPt, none)
    else
      let c := toV p
      match ctrl with
      | some c0 => (poly ++ flattenQuad prevOn c0 (c0.mid c) segs, c0.mid c, some c)
      | none => (poly, prevOn, some c)

/-- The walk loop of flattenTrueTypeContour: starting at index `i`,
run `fuel` iterations, advancing the index by one (mod `n`) each time. -/
def walkLoop (pts : List TPoint) (toV : TPoint → Coord) (segs n : Nat) :
    Nat → Nat → Contour × Coord × Option Coord → Contour × Coord × Option Coord
  | _, 0, st => st
  | i, fuel + 1, st =>
    walkLoop pts toV segs n ((i + 1) % n) fuel (stepPoint toV segs st (pts.getD i default))

/-- Start-anchor selection of flattenTrueTypeContour: first point if
on-curve, else last point if on-curve, else the midpoint of last and
first (both off-curve). Returns (start, startIdx). -/
def startAnchor (pts : List TPoint) (penX scale : ℚ) : Coord × Nat :=
  let n := pts.length
  let p0 := pts.getD 0 default
  let pl := pts.getD (n - 1) default
  if p0.onCurve then (toVec penX scale p0, 0)
  else if pl.onCurve then (toVec penX scale pl, n - 1)
  else ((toVec penX scale pl).mid (toVec penX scale p0), 0)

/-- Post-walk closing of flattenTrueTypeContour: emit the final pending
quadratic back to start (or a straight closing segment), force explicit
closure, and discard polylines shorter than 4 points. -/
def closeContour (start : Coord) (segs : Nat)
    (st : Contour × Coord × Option Coord) : Contour :=
  let poly := st.1
  let poly :=
    match st.2.2 with
    | some c => poly ++ flattenQuad st.2.1 c start segs
    | none => if poly.getLastD default ≠ start then poly ++ [start] else poly
  let poly :=
    if poly.getLastD default ≠ poly.headD default then poly ++ [poly.headD default]
    else poly
  if poly.length < 4 then [] else poly

/-- flattenTrueTypeContour (current version: single circular walk with a
pending control point, one index advance per consumed point). -/
def flattenTrueTypeContour (pts : List TPoint) (penX scale : ℚ) (segs : Nat) : Contour :=
  if pts.length = 0 then []
  else
    let n := pts.length
    let sa := startAnchor pts penX scale
    let st := walkLoop pts (toVec penX scale) segs n ((sa.2 + 1) % n) n ([sa.1], sa.1, none)
    closeContour sa.1 segs st

/-- Glyph outline data as loaded into a truetype.GlyphBuf: the flattened
point list and the contour-ending indices. -/
structure Glyph where
  points : List TPoint
  ends : List Nat

/-- The half-open contour slices `pts[start:end]` taken by
glyphContoursToPolylines. -/
def contourSlices (pts : List TPoint) : Nat → List Nat → List (List TPoint)
  | _, [] => []
  | start, e :: rest => ((pts.drop start).take (e - start)) :: contourSlices pts e rest

/-- glyphContoursToPolylines: flatten each contour slice, keeping only
polylines with at least 3 points. -/
def glyphContoursToPolylines (g : Glyph) (penX scale : ℚ) (segs : Nat) : List Contour :=
  (contourSlices g.points 0 g.ends).foldr
    (fun cpts acc =>
      if cpts.length = 0 then acc
      else
        let poly := flattenTrueTypeContour cpts penX scale segs
        if 3 ≤ poly.length then poly :: acc else acc)
    []

/-- The truetype.Font collaborator, as consumed by the library: glyph
index lookup, glyph loading (None models a Load error), advance width
and kerning (both 26.6 fixed-point values at `fixedScale`), plus the
font-wide metrics used for the scale computation. -/
structure Font where
  upem : ℚ
  boundsMaxY : ℚ
  index : Char → Nat
  load : Nat → Option Glyph
  advance : Nat → Int
  kern : Nat → Nat → Int

/-- One glyph of the HarfBuzz shaper output, already converted to font
units (out.ToFontUnit). -/
structure HBOut where
  gid : Nat
  xOffset : Int
  xAdvance : Int

/-- The external shaping collaborator: text and the kerning flag to a
glyph sequence. -/
abbrev HBShaper := List Char → Bool → List HBOut

/-- ParsedFont: parsed TrueType data (None models a nil pointer), the
cached OS/2 ascent, and the optional shaping capability. -/
structure ParsedFont where
  ttFont : Option Font
  ascent : ℚ
  hb : Option HBShaper

inductive HAlign
  | left
  | center
  | right
deriving DecidableEq, Repr

inductive VAlign
  | baseline
  | top
  | vcenter
  | bottom
deriving DecidableEq, Repr

structure Align where
  hAlign : HAlign
  vAlign : VAlign

structure Options where
  size : ℚ
  curveSegs : Int
  align : Align
  kerning : Bool
  spacing : ℚ

/-- computeAlign (current version): right is anchored to the total
advance, left to the pen origin, center to the ink bounding box. -/
def computeAlign (opt : Options) (minX minY maxX maxY advanceWidth : ℚ) : ℚ × ℚ :=
  let width := maxX - minX
  let dx :=
    match opt.align.hAlign with
    | .right => -advanceWidth
    | .center => -(minX + width / 2)
    | .left => 0
  let dy :=
    match opt.align.vAlign with
    | .top => -maxY
    | .vcenter => -(minY + (maxY - minY) / 2)
    | .bottom => -minY
    | .baseline => 0
  (dx, dy)

/-- The scale computation of TextOutlines: ascent falls back to the
font bounding-box top, then to units-per-em; scale = Size / ascent. -/
def scaleOf (p : ParsedFont) (f : Font) (size : ℚ) : ℚ :=
  let ascent := p.ascent
  let ascent := if ascent ≤ 0 then f.boundsMaxY else ascent
  let ascent := if ascent ≤ 0 then f.upem else ascent
  size / ascent

/-- Option normalization performed at the top of TextOutlines:
CurveSegs defaults to 8 when non-positive, Spacing 0 becomes 1. -/
def normOpt (opt : Options) : Options :=
  let o := if opt.curveSegs ≤ 0 then { opt with curveSegs := 8 } else opt
  if o.spacing = 0 then { o with spacing := 1 } else o

def segsOf (opt : Options) : Nat := opt.curveSegs.toNat

/-- State of the fallback layout loop: pen position (font units), the
previous glyph index (hasPrev), and the accumulated contours. -/
structure LayoutState where
  penX : ℚ
  prev : Option Nat
  outlines : Outlines

/-- The kerning adjustment added to penX before positioning a glyph:
`kern(prev, idx)/64 * spacing` when kerning is enabled and a previous
glyph exists, else 0. -/
def kernAdj (f : Font) (opt : Options) (prev : Option Nat) (idx : Nat) : ℚ :=
  match prev with
  | some p => if opt.kerning then ((f.kern p idx : ℚ) / 64) * opt.spacing else 0
  | none => 0

/-- One iteration of the fallback layout loop of TextOutlines. -/
def fallbackStep (f : Font) (opt : Options) (scale : ℚ) (segs : Nat)
    (st : LayoutState) (r : Char) : LayoutState :=
  let idx := f.index r
  let penX := st.penX + kernAdj f opt st.prev idx
  match f.load idx with
  | none =>
    { penX := penX + ((f.advance idx : ℚ) / 64) * opt.spacing
      prev := some idx
      outlines := st.outlines }
  | some g =>
    let contours := glyphContoursToPolylines g penX scale segs
    { penX := penX + ((f.advance idx : ℚ) / 64) * opt.spacing
      prev := some idx
      outlines := st.outlines ++ contours }

/-- Pen-position accumulation of shapeGlyphsWithHarfBuzz: each glyph is
positioned at `penX + xOffset` and the pen advances by
`xAdvance * spacing`; returns the positioned glyphs and the final pen. -/
def hbPosition (spacing : ℚ) : List HBOut → ℚ → List (Nat × ℚ) × ℚ
  | [], penX => ([], penX)
  | g :: rest, penX =>
    let r := hbPosition spacing rest (penX + (g.xAdvance : ℚ) * spacing)
    ((g.gid, penX + (g.xOffset : ℚ)) :: r.1, r.2)

/-- Rendering of one positioned glyph on the HarfBuzz path: a glyph
whose outline fails to load contributes nothing. -/
def hbRenderStep (f : Font) (scale : ℚ) (segs : Nat)
    (outs : Outlines) (g : Nat × ℚ) : Outlines :=
  match f.load g.1 with
  | none => outs
  | some gl => outs ++ glyphContoursToPolylines gl g.2 scale segs

/-- The layout section of TextOutlines: HarfBuzz path when a shaping
capability is present, else the fallback codepoint loop.  Returns the
accumulated contours and the total layout advance (font units). -/
def textLayout (p : ParsedFont) (f : Font) (s : List Char) (opt : Options)
    (scale : ℚ) : Outlines × ℚ :=
  match p.hb with
  | some shaper =>
    if s.length = 0 then ([], 0)
    else
      let pos := hbPosition opt.spacing (shaper s opt.kerning) 0
      (pos.1.foldl (hbRenderStep f scale (segsOf opt)) [], pos.2)
  | none =>
    let st := s.foldl (fallbackStep f opt scale (segsOf opt)) ⟨0, none, []⟩
    (st.outlines, st.penX)

/-- The running ink bounding box of TextOutlines: the fold of min/max
over every point of every contour (None when there are no points,
corresponding to the untouched ±infinity initial values). -/
def boundsOf (outlines : Outlines) : Option (ℚ × ℚ × ℚ × ℚ) :=
  match outlines.flatten with
  | [] => none
  | p :: rest =>
    some (rest.foldl
      (fun b q => (min b.1 q.x, min b.2.1 q.y, max b.2.2.1 q.x, max b.2.2.2 q.y))
      (p.x, p.y, p.x, p.y))

/-- The final alignment translation of TextOutlines: the same (dx, dy)
added to every point of every contour. -/
def translateOutlines (dx dy : ℚ) (outlines : Outlines) : Outlines :=
  outlines.map (fun c => c.map (fun p => ⟨p.x + dx, p.y + dy⟩))

/-- TextOutlines: validation, scale computation, layout, bounds
accumulation, alignment, translation. -/
def TextOutlines (parsed : Option ParsedFont) (s : List Char) (opt : Options) :
    Except String Outlines :=
  match parsed with
  | none => .error "nil font"
  | some p =>
    match p.ttFont with
    | none => .error "nil font"
    | some f =>
      if opt.size ≤ 0 then .error "Size must be > 0"
      else
        let opt := normOpt opt
        if opt.spacing < 0 then .error "Spacing must be >= 0"
        else
          let scale := scaleOf p f opt.size
          let lay := textLayout p f s opt scale
          if lay.1.length = 0 then .ok []
          else
            match boundsOf lay.1 with
            | none => .ok []
            | some (mnX, mnY, mxX, mxY) =>
              let a := computeAlign opt mnX mnY mxX mxY (lay.2 * scale)
              .ok (translateOutlines a.1 a.2 lay.1)

/-! ### Binary table reader (parseOS2TypoAscender)

Byte buffers are `List Nat`; a read returns `none` when any accessed
index is out of bounds, modelling a Go slice-bounds panic.  The whole
parser therefore returns `Option (Int × Bool)`: `none` would mean the
Go code crashed, `some (v, ok)` is its ordinary return value. -/

/-- Big-endian 16-bit read `binary.BigEndian.Uint16(data[i:i+2])`. -/
def readU16 (d : List Nat) (i : Nat) : Option Nat :=
  match d.get? i, d.get? (i + 1) with
  | some a, some b => some (a * 256 + b)
  | _, _ => none

/-- Big-endian 32-bit read `binary.BigEndian.Uint32(data[i:i+4])`. -/
def readU32 (d : List Nat) (i : Nat) : Option Nat :=
  match readU16 d i, readU16 d (i + 2) with
  | some a, some b => some (a * 65536 + b)
  | _, _ => none

/-- The 4-byte tag `string(data[i:i+4])`. -/
def tagBytes (d : List Nat) (i : Nat) : Option (List Nat) :=
  match d.get? i, d.get? (i + 1), d.get? (i + 2), d.get? (i + 3) with
  | some a, some b, some c, some e => some [a, b, c, e]
  | _, _, _, _ => none

/-- The bytes of the tag "OS/2". -/
def os2Tag : List Nat := [79, 83, 47, 50]

/-- Reinterpret a 16-bit unsigned value as a signed int16 (the Go cast
`int16(binary.BigEndian.Uint16(...))`). -/
def toInt16 (v : Nat) : Int := if v < 32768 then (v : Int) else (v : Int) - 65536

/-- The directory scan loop of parseOS2TypoAscender, recursing on the
number of remaining records; `i` is the current record index.  The Go
guards `tableOffset < 0 || tableLen < 0` are vacuous over `Nat`. -/
def scanOS2 (d : List Nat) : Nat → Nat → Option (Int × Bool)
  | 0, _ => some (0, false)
  | remaining + 1, i =>
    let recOff := 12 + i * 16
    match tagBytes d recOff with
    | none => none
    | some tg =>
      if tg ≠ os2Tag then scanOS2 d remaining (i + 1)
      else
        match readU32 d (recOff + 8), readU32 d (recOff + 12) with
        | some tableOffset, some tableLen =>
          if d.length < tableOffset + tableLen ∨ tableLen < 70 then some (0, false)
          else
            match readU16 d (tableOffset + 68) with
            | some v => some (toInt16 v, decide (0 < toInt16 v))
            | none => none
        | _, _ => none

/-- parseOS2TypoAscender: header guard, directory-size guard, then the
record scan.  `tableDirOffset = 12`, `recordSize = 16`,
`typoAscOffset = 68`. -/
def parseOS2TypoAscender (d : List Nat) : Option (Int × Bool) :=
  if d.length < 12 then some (0, false)
  else
    match readU16 d 4 with
    | none => none
    | some numTables =>
      if d.length < 12 + numTables * 16 then some (0, false)
      else scanOS2 d numTables 0

/-- The declared table count, for stating directory-absence. -/
def numTablesOf (d : List Nat) : Nat := (readU16 d 4).getD 0

/-! ### Statement-side definitions -/

/-- The standard quadratic Bezier parametrization, written from the
specification's words, to be compared with `flattenQuad`. -/
def specQuadBezier (p0 p1 p2 : Coord) (t : ℚ) : Coord :=
  ⟨(1 - t) ^ 2 * p0.x + 2 * (1 - t) * t * p1.x + t ^ 2 * p2.x,
   (1 - t) ^ 2 * p0.y + 2 * (1 - t) * t * p1.y + t ^ 2 * p2.y⟩

/-- The points of a contour in original order starting after `startIdx`,
wrapping circularly. -/
def circularWalk (pts : List TPoint) (startIdx : Nat) : List TPoint :=
  (List.range pts.length).map
    (fun k => pts.getD ((startIdx + 1 + k) % pts.length) default)

/-! ### Concrete data for witnesses: a one-glyph font whose glyph 0 is
the triangular contour (100,0)-(500,0)-(300,700) in font units (26.6
values at fixedScale), ascent 800, upem 1000, advance 600, and whose
every other glyph index fails to load. -/

def wGlyph : Glyph :=
  { points := [⟨6400, 0, 1⟩, ⟨32000, 0, 1⟩, ⟨19200, 44800, 1⟩], ends := [3] }

def wFont : Font :=
  { upem := 1000
    boundsMaxY := 800
    index := fun c => if c = 'A' then 0 else 1
    load := fun i => if i = 0 then some wGlyph else none
    advance := fun _ => 38400
    kern := fun _ _ => -640 }

def wParsed : ParsedFont := { ttFont := some wFont, ascent := 800, hb := none }

def wOpt : Options :=
  { size := 10, curveSegs := 8, align := ⟨.left, .baseline⟩, kerning := false, spacing := 1 }

/-- The right/baseline alignment variant of the witness options. -/
def wOptR : Options :=
  { size := 10, curveSegs := 8, align := ⟨.right, .baseline⟩, kerning := false, spacing := 1 }

/-- The expected left/baseline outlines for the witness font and text "A". -/
def wOut : Outlines :=
  [[⟨5/4, 0⟩, ⟨25/4, 0⟩, ⟨15/4, 35/4⟩, ⟨5/4, 0⟩]]

/-- The good-contour property: nonempty, at least 4 points, closed. -/
def GoodContour (c : Contour) : Prop :=
  c ≠ [] ∧ 4 ≤ c.length ∧ c.head? = c.getLast?

/-! ## Theorems -/

theorem Coord.ext' {p q : Coord} (hx : p.x = q.x) (hy : p.y = q.y) : p = q := by
  cases p
  cases q
  cases hx
  cases hy
  rfl

theorem mod_shift (n a k : Nat) : ((a % n) + k) % n = (a + k) % n := by
  conv_rhs => rw [Nat.add_mod]
  rw [Nat.add_mod (a % n) k]
  simp [Nat.mod_mod_of_dvd]

/-- The fueled, index-advancing walk loop is the fold of the step
function over the points taken at indices `i, i+1, ...` mod `n`. -/
theorem walkLoop_eq_foldl (pts : List TPoint) (toV : TPoint → Coord) (segs n : Nat) :
    ∀ fuel i st, i < n →
      walkLoop pts toV segs n i fuel st =
        ((List.range fuel).map (fun k => pts.getD ((i + k) % n) default)).foldl
          (stepPoint toV segs) st := by
  intro fuel
  induction fuel with
  | zero => intro i st _; simp [walkLoop]
  | succ m ih =>
    intro i st hi
    rw [walkLoop, ih ((i + 1) % n) _ (Nat.mod_lt _ (by omega))]
    rw [List.range_succ_eq_map]
    simp only [List.map_cons, List.map_map, List.foldl_cons]
    congr 2
    · rw [Nat.add_zero, Nat.mod_eq_of_lt hi]
    · funext k
      simp only [Function.comp]
      rw [mod_shift]
      have harg : i + 1 + k = i + Nat.succ k := by omega
      rw [harg]

theorem getD_zero_eq_head {pts : List TPoint} (h : pts ≠ []) :
    pts.getD 0 default = pts.head h := by
  rw [List.getD_eq_getElem?_getD, List.getElem?_eq_getElem (List.length_pos.mpr h),
    List.head_eq_getElem]
  rfl

theorem getD_last_eq_getLast {pts : List TPoint} (h : pts ≠ []) :
    pts.getD (pts.length - 1) default = pts.getLast h := by
  have hl : 0 < pts.length := List.length_pos.mpr h
  rw [List.getD_eq_getElem?_getD, List.getElem?_eq_getElem (by omega),
    List.getLast_eq_getElem]
  rfl

theorem forceClose_closed (l : Contour) :
    (if l.getLastD default ≠ l.headD default then l ++ [l.headD default] else l).head? =
      (if l.getLastD default ≠ l.headD default then l ++ [l.headD default] else l).getLast? := by
  by_cases hl : l = []
  · subst hl
    simp
  · obtain ⟨b, t, rfl⟩ : ∃ b t, l = b :: t := by
      cases l with
      | nil => exact absurd rfl hl
      | cons b t => exact ⟨b, t, rfl⟩
    by_cases h : (b :: t).getLastD default ≠ (b :: t).headD default
    · rw [if_pos h, List.getLast?_concat]
      rw [List.head?_append]
      simp [List.headD]
    · rw [if_neg h]
      push_neg at h
      rw [List.getLastD_eq_getLast?, List.headD_eq_head?] at h
      rw [List.head?_eq_head (l := b :: t) (by simp),
        List.getLast?_eq_getLast (b :: t) (by simp)] at h ⊢
      simp at h ⊢
      exact h.symm

theorem closeContour_cases (start : Coord) (segs : Nat) (st : Contour × Coord × Option Coord) :
    closeContour start segs st = [] ∨
      (4 ≤ (closeContour start segs st).length ∧
        (closeContour start segs st).head? = (closeContour start segs st).getLast?) := by
  rw [closeContour]
  set poly1 :=
    (match st.2.2 with
      | some c => st.1 ++ flattenQuad st.2.1 c start segs
      | none => if st.1.getLastD default ≠ start then st.1 ++ [start] else st.1) with hpoly1
  set poly2 :=
    (if poly1.getLastD default ≠ poly1.headD default then poly1 ++ [poly1.headD default]
      else poly1) with hpoly2
  by_cases hlen : poly2.length < 4
  · left
    simp [hlen]
  · right
    rw [if_neg hlen]
    exact ⟨by omega, by rw [hpoly2]; exact forceClose_closed poly1⟩

theorem flatten_cases (pts : List TPoint) (penX scale : ℚ) (segs : Nat) :
    flattenTrueTypeContour pts penX scale segs = [] ∨
      (4 ≤ (flattenTrueTypeContour pts penX scale segs).length ∧
        (flattenTrueTypeContour pts penX scale segs).head? =
          (flattenTrueTypeContour pts penX scale segs).getLast?) := by
  rw [flattenTrueTypeContour]
  by_cases h : pts.length = 0
  · left
    simp [h]
  · rw [if_neg h]
    exact closeContour_cases _ _ _

theorem mem_foldr_flatten (penX scale : ℚ) (segs : Nat) :
    ∀ (L : List (List TPoint)) (acc : List Contour),
      (∀ c ∈ acc, GoodContour c) →
      ∀ c ∈ L.foldr (fun cpts acc =>
          if cpts.length = 0 then acc
          else
            let poly := flattenTrueTypeContour cpts penX scale segs
            if 3 ≤ poly.length then poly :: acc else acc) acc,
        GoodContour c := by
  intro L
  induction L with
  | nil => intro acc hacc c hc; exact hacc c hc
  | cons x L ih =>
    intro acc hacc c hc
    rw [List.foldr_cons] at hc
    by_cases hx : x.length = 0
    · rw [if_pos hx] at hc
      exact ih acc hacc c hc
    · rw [if_neg hx] at hc
      simp only [] at hc
      by_cases hp : 3 ≤ (flattenTrueTypeContour x penX scale segs).length
      · rw [if_pos hp] at hc
        rcases List.mem_cons.mp hc with h | h
        · subst h
          rcases flatten_cases x penX scale segs with hnil | ⟨h4, hcl⟩
          · rw [hnil] at hp
            simp at hp
          · refine ⟨?_, h4, hcl⟩
            intro hn
            rw [hn] at h4
            simp at h4
        · exact ih acc hacc c h
      · rw [if_neg hp] at hc
        exact ih acc hacc c hc

theorem mem_glyphContoursToPolylines {g : Glyph} {penX scale : ℚ} {segs : Nat} {c : Contour}
    (hc : c ∈ glyphContoursToPolylines g penX scale segs) : GoodContour c := by
  rw [glyphContoursToPolylines] at hc
  exact mem_foldr_flatten penX scale segs _ [] (by simp) c hc

theorem fallbackStep_outlines_inv {f : Font} {opt : Options} {scale : ℚ} {segs : Nat}
    {st : LayoutState} {r : Char} (h : ∀ c ∈ st.outlines, GoodContour c) :
    ∀ c ∈ (fallbackStep f opt scale segs st r).outlines, GoodContour c := by
  intro c hc
  rw [fallbackStep] at hc
  rcases hload : f.load (f.index r) with _ | g
  · rw [hload] at hc
    exact h c hc
  · rw [hload] at hc
    simp only [] at hc
    rcases List.mem_append.mp hc with h1 | h1
    · exact h c h1
    · exact mem_glyphContoursToPolylines h1

theorem fallbackFold_outlines_inv (f : Font) (opt : Options) (scale : ℚ) (segs : Nat) :
    ∀ (s : List Char) (st : LayoutState), (∀ c ∈ st.outlines, GoodContour c) →
      ∀ c ∈ (s.foldl (fallbackStep f opt scale segs) st).outlines, GoodContour c := by
  intro s
  induction s with
  | nil => intro st h; exact h
  | cons r s ih =>
    intro st h
    rw [List.foldl_cons]
    exact ih _ (fallbackStep_outlines_inv h)

theorem hbRenderStep_outlines_inv {f : Font} {scale : ℚ} {segs : Nat}
    {outs : Outlines} {g : Nat × ℚ} (h : ∀ c ∈ outs, GoodContour c) :
    ∀ c ∈ hbRenderStep f scale segs outs g, GoodContour c := by
  intro c hc
  rw [hbRenderStep] at hc
  rcases hload : f.load g.1 with _ | gl
  · rw [hload] at hc
    exact h c hc
  · rw [hload] at hc
    rcases List.mem_append.mp hc with h1 | h1
    · exact h c h1
    · exact mem_glyphContoursToPolylines h1

theorem hbFold_outlines_inv (f : Font) (scale : ℚ) (segs : Nat) :
    ∀ (gs : List (Nat × ℚ)) (outs : Outlines), (∀ c ∈ outs, GoodContour c) →
      ∀ c ∈ gs.foldl (hbRenderStep f scale segs) outs, GoodContour c := by
  intro gs
  induction gs with
  | nil => intro outs h; exact h
  | cons g gs ih =>
    intro outs h
    rw [List.foldl_cons]
    exact ih _ (hbRenderStep_outlines_inv h)

theorem textLayout_outlines_inv (p : ParsedFont) (f : Font) (s : List Char) (opt : Options)
    (scale : ℚ) : ∀ c ∈ (textLayout p f s opt scale).1, GoodContour c := by
  intro c hc
  rw [textLayout] at hc
  rcases hhb : p.hb with _ | shaper
  · rw [hhb] at hc
    simp only [] at hc
    exact fallbackFold_outlines_inv f opt scale (segsOf opt) s ⟨0, none, []⟩ (by simp) c hc
  · rw [hhb] at hc
    simp only [] at hc
    by_cases hs : s.length = 0
    · rw [if_pos hs] at hc
      simp at hc
    · rw [if_neg hs] at hc
      exact hbFold_outlines_inv f scale (segsOf opt) _ [] (by simp) c hc

theorem translate_good {dx dy : ℚ} {c : Contour} (h : GoodContour c) :
    GoodContour (c.map (fun p => Coord.mk (p.x + dx) (p.y + dy))) := by
  obtain ⟨hne, h4, hcl⟩ := h
  refine ⟨by simpa using hne, by simpa using h4, ?_⟩
  rw [List.head?_map, List.getLast?_map, hcl]

theorem TextOutlines_ok_inv {parsed : Option ParsedFont} {s : List Char} {opt : Options}
    {outs : Outlines} (h : TextOutlines parsed s opt = .ok outs) :
    ∀ c ∈ outs, GoodContour c := by
  rcases parsed with _ | p
  · rw [TextOutlines.eq_def] at h
    exact absurd h (by simp)
  · rw [TextOutlines.eq_def] at h
    simp only [] at h
    rcases hf : p.ttFont with _ | f
    · rw [hf] at h
      exact absurd h (by simp)
    · rw [hf] at h
      simp only [] at h
      by_cases hsz : opt.size ≤ 0
      · rw [if_pos hsz] at h
        exact absurd h (by simp)
      · rw [if_neg hsz] at h
        by_cases hsp : (normOpt opt).spacing < 0
        · rw [if_pos hsp] at h
          exact absurd h (by simp)
        · rw [if_neg hsp] at h
          by_cases hlay :
              (textLayout p f s (normOpt opt) (scaleOf p f (normOpt opt).size)).1.length = 0
          · rw [if_pos hlay] at h
            rw [Except.ok.injEq] at h
            subst h
            intro c hc
            simp at hc
          · rw [if_neg hlay] at h
            rcases hb : boundsOf (textLayout p f s (normOpt opt)
                (scaleOf p f (normOpt opt).size)).1 with _ | bnds
            · rw [hb] at h
              rw [Except.ok.injEq] at h
              subst h
              intro c hc
              simp at hc
            · rw [hb] at h
              obtain ⟨mnX, mnY, mxX, mxY⟩ := bnds
              rw [Except.ok.injEq] at h
              subst h
              intro c hc
              rw [translateOutlines] at hc
              obtain ⟨c0, hc0, rfl⟩ := List.mem_map.mp hc
              exact translate_good (textLayout_outlines_inv _ _ _ _ _ c0 hc0)

theorem normOpt_spacing (opt : Options) :
    (normOpt opt).spacing = if opt.spacing = 0 then 1 else opt.spacing := by
  rw [normOpt]
  by_cases hcs : opt.curveSegs ≤ 0 <;> by_cases hsp : opt.spacing = 0 <;>
    simp [hcs, hsp]

theorem normOpt_align (opt : Options) : (normOpt opt).align = opt.align := by
  rw [normOpt]
  split <;> split <;> rfl

theorem normOpt_size (opt : Options) : (normOpt opt).size = opt.size := by
  rw [normOpt]
  split <;> split <;> rfl

theorem normOpt_spacing_neg (opt : Options) :
    (normOpt opt).spacing < 0 ↔ opt.spacing < 0 := by
  rw [normOpt_spacing]
  by_cases hsp : opt.spacing = 0
  · simp [hsp]
  · simp [hsp]

theorem normOpt_zero_one (opt : Options) :
    normOpt { opt with spacing := 0 } = normOpt { opt with spacing := 1 } := by
  by_cases hcs : opt.curveSegs ≤ 0 <;> simp [normOpt, hcs]

theorem flatten_ne_nil_of_good {outs : Outlines} (hne : outs ≠ [])
    (hg : ∀ c ∈ outs, GoodContour c) : outs.flatten ≠ [] := by
  rcases outs with _ | ⟨c, rest⟩
  · exact absurd rfl hne
  · have hc : c ≠ [] := (hg c (by simp)).1
    simp only [List.flatten_cons]
    intro hcontra
    rw [List.append_eq_nil] at hcontra
    exact hc hcontra.1

theorem readU16_some {d : List Nat} {i : Nat} (h : i + 1 < d.length) :
    ∃ v, readU16 d i = some v := by
  rw [readU16, List.get?_eq_getElem?, List.get?_eq_getElem?,
    List.getElem?_eq_getElem (by omega : i < d.length), List.getElem?_eq_getElem h]
  exact ⟨_, rfl⟩

theorem readU32_some {d : List Nat} {i : Nat} (h : i + 3 < d.length) :
    ∃ v, readU32 d i = some v := by
  obtain ⟨a, ha⟩ := readU16_some (d := d) (i := i) (by omega)
  obtain ⟨b, hb⟩ := readU16_some (d := d) (i := i + 2) (by omega)
  rw [readU32, ha, hb]
  exact ⟨_, rfl⟩

theorem tagBytes_some {d : List Nat} {i : Nat} (h : i + 3 < d.length) :
    ∃ v, tagBytes d i = some v := by
  rw [tagBytes, List.get?_eq_getElem?, List.get?_eq_getElem?, List.get?_eq_getElem?,
    List.get?_eq_getElem?,
    List.getElem?_eq_getElem (by omega : i < d.length),
    List.getElem?_eq_getElem (by omega : i + 1 < d.length),
    List.getElem?_eq_getElem (by omega : i + 2 < d.length),
    List.getElem?_eq_getElem h]
  exact ⟨_, rfl⟩

theorem scanOS2_total (d : List Nat) :
    ∀ remaining i, 12 + (i + remaining) * 16 ≤ d.length →
      ∃ r, scanOS2 d remaining i = some r := by
  intro remaining
  induction remaining with
  | zero => intro i _; exact ⟨(0, false), rfl⟩
  | succ m ih =>
    intro i hbound
    obtain ⟨tg, htg⟩ := tagBytes_some (d := d) (i := 12 + i * 16) (by omega)
    rw [scanOS2, htg]
    simp only []
    by_cases htag : tg ≠ os2Tag
    · rw [if_pos htag]
      exact ih (i + 1) (by omega)
    · rw [if_neg htag]
      obtain ⟨off, hoff⟩ := readU32_some (d := d) (i := 12 + i * 16 + 8) (by omega)
      obtain ⟨tlen, hlen⟩ := readU32_some (d := d) (i := 12 + i * 16 + 12) (by omega)
      rw [hoff, hlen]
      simp only []
      by_cases hbnd : d.length < off + tlen ∨ tlen < 70
      · rw [if_pos hbnd]
        exact ⟨_, rfl⟩
      · rw [if_neg hbnd]
        push_neg at hbnd
        obtain ⟨v, hv⟩ := readU16_some (d := d) (i := off + 68) (by omega)
        rw [hv]
        exact ⟨_, rfl⟩

theorem scanOS2_pos (d : List Nat) :
    ∀ remaining i v, scanOS2 d remaining i = some (v, true) → 0 < v := by
  intro remaining
  induction remaining with
  | zero =>
    intro i v h
    rw [scanOS2] at h
    rw [Option.some.injEq, Prod.mk.injEq] at h
    exact absurd h.2 (by simp)
  | succ m ih =>
    intro i v h
    rw [scanOS2] at h
    rcases htg : tagBytes d (12 + i * 16) with _ | tg
    · rw [htg] at h
      exact Option.noConfusion h
    · rw [htg] at h
      simp only [] at h
      by_cases htag : tg ≠ os2Tag
      · rw [if_pos htag] at h
        exact ih (i + 1) v h
      · rw [if_neg htag] at h
        rcases hoff : readU32 d (12 + i * 16 + 8) with _ | off
        · rw [hoff] at h
          exact Option.noConfusion h
        · rw [hoff] at h
          rcases hlen : readU32 d (12 + i * 16 + 12) with _ | tlen
          · rw [hlen] at h
            simp only [] at h
            exact Option.noConfusion h
          · rw [hlen] at h
            simp only [] at h
            by_cases hbnd : d.length < off + tlen ∨ tlen < 70
            · rw [if_pos hbnd] at h
              rw [Option.some.injEq, Prod.mk.injEq] at h
              exact absurd h.2 (by simp)
            · rw [if_neg hbnd] at h
              rcases hv : readU16 d (off + 68) with _ | w
              · rw [hv] at h
                exact Option.noConfusion h
              · rw [hv] at h
                simp only [] at h
                rw [Option.some.injEq, Prod.mk.injEq] at h
                obtain ⟨hv1, hv2⟩ := h
                subst hv1
                exact of_decide_eq_true hv2

theorem scanOS2_absent (d : List Nat) :
    ∀ remaining i, 12 + (i + remaining) * 16 ≤ d.length →
      (∀ k, i ≤ k → k < i + remaining → tagBytes d (12 + k * 16) ≠ some os2Tag) →
      scanOS2 d remaining i = some (0, false) := by
  intro remaining
  induction remaining with
  | zero => intro i _ _; rfl
  | succ m ih =>
    intro i hbound habs
    obtain ⟨tg, htg⟩ := tagBytes_some (d := d) (i := 12 + i * 16) (by omega)
    rw [scanOS2, htg]
    simp only []
    have htag : tg ≠ os2Tag := by
      intro hcontra
      subst hcontra
      exact habs i (le_refl i) (by omega) htg
    rw [if_pos htag]
    exact ih (i + 1) (by omega) (fun k hk1 hk2 => habs k (by omega) (by omega))

theorem scanOS2_badbounds (d : List Nat) :
    ∀ remaining i m off tlen, i ≤ m → m < i + remaining →
      12 + (i + remaining) * 16 ≤ d.length →
      tagBytes d (12 + m * 16) = some os2Tag →
      (∀ k, i ≤ k → k < m → tagBytes d (12 + k * 16) ≠ some os2Tag) →
      readU32 d (12 + m * 16 + 8) = some off →
      readU32 d (12 + m * 16 + 12) = some tlen →
      (d.length < off + tlen ∨ tlen < 70) →
      scanOS2 d remaining i = some (0, false) := by
  intro remaining
  induction remaining with
  | zero => intro i m off tlen h1 h2; omega
  | succ mm ih =>
    intro i m off tlen him hm hbound htg habs hoff hlen hbad
    by_cases heq : i = m
    · subst heq
      rw [scanOS2, htg]
      simp only []
      rw [if_neg (by simp), hoff, hlen]
      simp only []
      rw [if_pos hbad]
    · obtain ⟨tg, htg'⟩ := tagBytes_some (d := d) (i := 12 + i * 16) (by omega)
      rw [scanOS2, htg']
      simp only []
      have htag : tg ≠ os2Tag := by
        intro hcontra
        subst hcontra
        exact habs i (le_refl i) (by omega) htg'
      rw [if_pos htag]
      exact ih (i + 1) m off tlen (by omega) (by omega) (by omega) htg
        (fun k hk1 hk2 => habs k (by omega) hk2) hoff hlen hbad

/-- C8: for segs ≥ 1, flattenQuad returns exactly segs points; the k-th
point (1-based) is the quadratic Bezier value at t = k/segs, so the
parameter values are equally spaced in (0, 1], p2 is included as the
last point (t = 1) and p0 (t = 0) is excluded. -/
theorem c8_flattenQuad_bezier (p0 p1 p2 : Coord) (segs : Nat) (hs : 1 ≤ segs) :
    (flattenQuad p0 p1 p2 segs).length = segs ∧
    (∀ k, k < segs → (flattenQuad p0 p1 p2 segs).get? k =
      some (specQuadBezier p0 p1 p2 (((k : ℚ) + 1) / (segs : ℚ)))) ∧
    (flattenQuad p0 p1 p2 segs).getLast? = some p2 := by
  have hlen : (flattenQuad p0 p1 p2 segs).length = segs := by
    simp only [flattenQuad, List.length_map, List.length_range]
  have hget : ∀ k, k < segs → (flattenQuad p0 p1 p2 segs).get? k =
      some (specQuadBezier p0 p1 p2 (((k : ℚ) + 1) / (segs : ℚ))) := by
    intro k hk
    rw [List.get?_eq_getElem?]
    simp only [flattenQuad, List.getElem?_map, List.getElem?_range hk, Option.map_some']
    refine congrArg some ?_
    simp only [specQuadBezier, Coord.scale, Coord.add]
    refine Coord.ext' ?_ ?_ <;> (simp only []; ring)
  refine ⟨hlen, hget, ?_⟩
  rw [List.getLast?_eq_getElem?, hlen, ← List.get?_eq_getElem?, hget (segs - 1) (by omega)]
  have hseg : ((segs : ℚ)) ≠ 0 := by
    have h0 : 0 < segs := hs
    exact_mod_cast h0.ne'
  have ht : (((segs - 1 : Nat) : ℚ) + 1) / (segs : ℚ) = 1 := by
    rw [Nat.cast_sub hs]
    field_simp
  rw [ht]
  refine congrArg some ?_
  simp only [specQuadBezier]
  refine Coord.ext' ?_ ?_ <;> (simp only []; ring)

theorem c8_flattenQuad_bezier_witness :
    (flattenQuad ⟨0, 0⟩ ⟨1, 1⟩ ⟨2, 0⟩ 2).getLast? = some ⟨2, 0⟩ :=
  (c8_flattenQuad_bezier ⟨0, 0⟩ ⟨1, 1⟩ ⟨2, 0⟩ 2 (by norm_num)).2.2

/-- C2: when the walk meets an off-curve point while a control point is
pending, it emits a flattened quadratic from the previous on-curve
point through the pending control to the implied on-curve point at the
exact midpoint of the two off-curve points, carries the new off-curve
point as the pending control, and advances the walk index by exactly
one position (mod n), consuming exactly one unit of fuel. -/
theorem c2_offcurve_pending_step (pts : List TPoint) (toV : TPoint → Coord)
    (segs n i fuel : Nat) (poly : Contour) (prevOn c0 : Coord)
    (hoff : (pts.getD i default).onCurve = false) :
    walkLoop pts toV segs n i (fuel + 1) (poly, prevOn, some c0) =
      walkLoop pts toV segs n ((i + 1) % n) fuel
        (poly ++ flattenQuad prevOn c0 (c0.mid (toV (pts.getD i default))) segs,
         c0.mid (toV (pts.getD i default)), some (toV (pts.getD i default))) := by
  rw [walkLoop]
  simp only [stepPoint, hoff, Bool.false_eq_true, if_false]

theorem c2_offcurve_pending_step_witness :
    walkLoop [⟨0, 0, 0⟩] (toVec 0 1) 4 1 0 1 ([], ⟨0, 0⟩, some ⟨1, 1⟩) =
      walkLoop [⟨0, 0, 0⟩] (toVec 0 1) 4 1 ((0 + 1) % 1) 0
        (([] : Contour) ++
          flattenQuad ⟨0, 0⟩ ⟨1, 1⟩
            (Coord.mid ⟨1, 1⟩ (toVec 0 1 (List.getD [⟨0, 0, 0⟩] 0 default))) 4,
         Coord.mid ⟨1, 1⟩ (toVec 0 1 (List.getD [⟨0, 0, 0⟩] 0 default)),
         some (toVec 0 1 (List.getD [⟨0, 0, 0⟩] 0 default))) :=
  c2_offcurve_pending_step [⟨0, 0, 0⟩] (toVec 0 1) 4 1 0 0 [] ⟨0, 0⟩ ⟨1, 1⟩ (by decide)

/-- C3: for a nonempty contour, the starting anchor is the first point
if on-curve, else the last point if on-curve, else the midpoint of the
first and last points; and the flattening is the post-walk closing of
the step-function fold over the remaining points in original order,
wrapping circularly back past the anchor. -/
theorem c3_anchor_and_circular_walk (pts : List TPoint) (penX scale : ℚ) (segs : Nat)
    (hne : pts ≠ []) :
    (startAnchor pts penX scale =
      if (pts.head hne).onCurve then (toVec penX scale (pts.head hne), 0)
      else if (pts.getLast hne).onCurve then
        (toVec penX scale (pts.getLast hne), pts.length - 1)
      else ((toVec penX scale (pts.getLast hne)).mid
              (toVec penX scale (pts.head hne)), 0)) ∧
    flattenTrueTypeContour pts penX scale segs =
      closeContour (startAnchor pts penX scale).1 segs
        ((circularWalk pts (startAnchor pts penX scale).2).foldl
          (stepPoint (toVec penX scale) segs)
          ([(startAnchor pts penX scale).1], (startAnchor pts penX scale).1, none)) := by
  have hl : 0 < pts.length := List.length_pos.mpr hne
  constructor
  · rw [startAnchor]
    rw [getD_zero_eq_head hne, getD_last_eq_getLast hne]
  · simp only [flattenTrueTypeContour, if_neg (show ¬ pts.length = 0 by omega)]
    rw [walkLoop_eq_foldl pts (toVec penX scale) segs pts.length pts.length
      (((startAnchor pts penX scale).2 + 1) % pts.length) _ (Nat.mod_lt _ hl)]
    congr 1
    rw [circularWalk]
    have hfg :
        (fun k => pts.getD ((((startAnchor pts penX scale).2 + 1) % pts.length + k) % pts.length)
          default) =
        (fun k => pts.getD (((startAnchor pts penX scale).2 + 1 + k) % pts.length) default) :=
      funext fun k => by rw [mod_shift]
    rw [hfg]

theorem c3_anchor_and_circular_walk_witness :
    flattenTrueTypeContour wGlyph.points 0 (1 / 80) 8 =
      closeContour (startAnchor wGlyph.points 0 (1 / 80)).1 8
        ((circularWalk wGlyph.points (startAnchor wGlyph.points 0 (1 / 80)).2).foldl
          (stepPoint (toVec 0 (1 / 80)) 8)
          ([(startAnchor wGlyph.points 0 (1 / 80)).1],
            (startAnchor wGlyph.points 0 (1 / 80)).1, none)) :=
  (c3_anchor_and_circular_walk wGlyph.points 0 (1 / 80) 8 (by decide)).2

/-- C6: TextOutlines errors exactly when the parsed font is nil (None
parsed handle or None TTFont), Size ≤ 0, or Spacing < 0; and Spacing 0
is normalized to 1, so it is accepted and behaves exactly like
Spacing 1. -/
theorem c6_error_iff (parsed : Option ParsedFont) (s : List Char) (opt : Options) :
    ((∃ e, TextOutlines parsed s opt = .error e) ↔
      (parsed = none ∨ (∃ p, parsed = some p ∧ p.ttFont = none) ∨
        opt.size ≤ 0 ∨ opt.spacing < 0)) ∧
    TextOutlines parsed s { opt with spacing := 0 } =
      TextOutlines parsed s { opt with spacing := 1 } := by
  constructor
  · constructor
    · rintro ⟨e, he⟩
      rcases parsed with _ | p
      · exact Or.inl rfl
      · rw [TextOutlines.eq_def] at he
        simp only [] at he
        rcases hf : p.ttFont with _ | f
        · exact Or.inr (Or.inl ⟨p, rfl, hf⟩)
        · rw [hf] at he
          simp only [] at he
          by_cases hsz : opt.size ≤ 0
          · exact Or.inr (Or.inr (Or.inl hsz))
          · rw [if_neg hsz] at he
            by_cases hsp : (normOpt opt).spacing < 0
            · exact Or.inr (Or.inr (Or.inr ((normOpt_spacing_neg opt).mp hsp)))
            · rw [if_neg hsp] at he
              exfalso
              by_cases hlay :
                  (textLayout p f s (normOpt opt) (scaleOf p f (normOpt opt).size)).1.length = 0
              · rw [if_pos hlay] at he
                exact Except.noConfusion he
              · rw [if_neg hlay] at he
                rcases hb : boundsOf (textLayout p f s (normOpt opt)
                    (scaleOf p f (normOpt opt).size)).1 with _ | bnds
                · rw [hb] at he
                  exact Except.noConfusion he
                · rw [hb] at he
                  obtain ⟨mnX, mnY, mxX, mxY⟩ := bnds
                  exact Except.noConfusion he
    · intro hcond
      rcases parsed with _ | p
      · exact ⟨"nil font", by rw [TextOutlines.eq_def]⟩
      · rcases hf : p.ttFont with _ | f
        · exact ⟨"nil font", by rw [TextOutlines.eq_def]; simp only []; rw [hf]⟩
        · by_cases hsz : opt.size ≤ 0
          · refine ⟨"Size must be > 0", ?_⟩
            rw [TextOutlines.eq_def]
            simp only []
            rw [hf]
            simp only []
            rw [if_pos hsz]
          · rcases hcond with hcond | ⟨q, hq, hqf⟩ | hsz' | hsp
            · exact Option.noConfusion hcond
            · rw [Option.some.injEq] at hq
              subst hq
              rw [hqf] at hf
              exact Option.noConfusion hf
            · exact absurd hsz' hsz
            · refine ⟨"Spacing must be >= 0", ?_⟩
              rw [TextOutlines.eq_def]
              simp only []
              rw [hf]
              simp only []
              rw [if_neg hsz, if_pos ((normOpt_spacing_neg opt).mpr hsp)]
  · rcases parsed with _ | p
    · rw [TextOutlines.eq_def, TextOutlines.eq_def]
    · rcases hf : p.ttFont with _ | f
      · rw [TextOutlines.eq_def, TextOutlines.eq_def]
        simp only []
        rw [hf]
      · rw [TextOutlines.eq_def, TextOutlines.eq_def]
        simp only []
        rw [hf]
        simp only [normOpt_zero_one]

theorem c6_error_iff_witness : ∃ e, TextOutlines none [] wOpt = .error e :=
  ((c6_error_iff none [] wOpt).1).mpr (Or.inl rfl)

/-- C7: in the fallback path a glyph whose outline fails to load is not
an error and contributes no contours, but the pen still advances by the
glyph's advance width (font units) times the spacing multiplier, after
the usual kerning adjustment. -/
theorem c7_missing_glyph_advances (f : Font) (opt : Options) (scale : ℚ) (segs : Nat)
    (st : LayoutState) (r : Char) (hload : f.load (f.index r) = none) :
    fallbackStep f opt scale segs st r =
      { penX := st.penX + kernAdj f opt st.prev (f.index r)
          + ((f.advance (f.index r) : ℚ) / 64) * opt.spacing
        prev := some (f.index r)
        outlines := st.outlines } := by
  rw [fallbackStep]
  simp only [hload]

theorem c7_missing_glyph_advances_witness :
    fallbackStep wFont wOpt (1 / 80) 8 ⟨0, none, []⟩ 'B' =
      { penX := 0 + kernAdj wFont wOpt none (wFont.index 'B')
          + ((wFont.advance (wFont.index 'B') : ℚ) / 64) * wOpt.spacing
        prev := some (wFont.index 'B')
        outlines := [] } :=
  c7_missing_glyph_advances wFont wOpt (1 / 80) 8 ⟨0, none, []⟩ 'B' rfl

/-- C10: a glyph whose outline fails to load still becomes the previous
glyph for kerning: the kerning adjustment applied before the next glyph
is kern(missing, next) / 64 × spacing. -/
theorem c10_missing_glyph_kerning (f : Font) (opt : Options) (scale : ℚ) (segs : Nat)
    (st : LayoutState) (r r2 : Char)
    (hload : f.load (f.index r) = none) (hk : opt.kerning = true) :
    (fallbackStep f opt scale segs st r).prev = some (f.index r) ∧
    kernAdj f opt (fallbackStep f opt scale segs st r).prev (f.index r2) =
      ((f.kern (f.index r) (f.index r2) : ℚ) / 64) * opt.spacing := by
  have hprev : (fallbackStep f opt scale segs st r).prev = some (f.index r) := by
    rw [fallbackStep]
    simp only [hload]
  refine ⟨hprev, ?_⟩
  rw [hprev, kernAdj]
  simp [hk]

theorem c10_missing_glyph_kerning_witness :
    (fallbackStep wFont { wOpt with kerning := true } (1 / 80) 8 ⟨0, none, []⟩ 'B').prev =
        some (wFont.index 'B') ∧
      kernAdj wFont { wOpt with kerning := true }
          (fallbackStep wFont { wOpt with kerning := true } (1 / 80) 8 ⟨0, none, []⟩ 'B').prev
          (wFont.index 'A') =
        ((wFont.kern (wFont.index 'B') (wFont.index 'A') : ℚ) / 64) *
          ({ wOpt with kerning := true } : Options).spacing :=
  c10_missing_glyph_kerning wFont { wOpt with kerning := true } (1 / 80) 8 ⟨0, none, []⟩
    'B' 'A' rfl rfl

/-- C4: every contour returned by TextOutlines is nonempty with first
point equal to last point (exact equality), and the uniform translation
by (dx, dy) preserves this closure. -/
theorem c4_contour_closure (parsed : Option ParsedFont) (s : List Char) (opt : Options)
    (outs : Outlines) (h : TextOutlines parsed s opt = .ok outs) :
    (∀ c ∈ outs, c ≠ [] ∧ c.head? = c.getLast?) ∧
    (∀ (dx dy : ℚ) (c : Contour), c.head? = c.getLast? →
      (c.map fun q => Coord.mk (q.x + dx) (q.y + dy)).head? =
        (c.map fun q => Coord.mk (q.x + dx) (q.y + dy)).getLast?) := by
  constructor
  · intro c hc
    exact ⟨(TextOutlines_ok_inv h c hc).1, (TextOutlines_ok_inv h c hc).2.2⟩
  · intro dx dy c hcl
    rw [List.head?_map, List.getLast?_map, hcl]

/-- C5: every contour returned by TextOutlines has at least 4 points,
and any flattened contour polyline shorter than that is discarded
(flattenTrueTypeContour only ever returns empty or length ≥ 4). -/
theorem c5_contour_min_size (parsed : Option ParsedFont) (s : List Char) (opt : Options)
    (outs : Outlines) (h : TextOutlines parsed s opt = .ok outs) :
    (∀ c ∈ outs, 4 ≤ c.length) ∧
    (∀ (pts : List TPoint) (penX scale : ℚ) (segs : Nat),
      flattenTrueTypeContour pts penX scale segs ≠ [] →
        4 ≤ (flattenTrueTypeContour pts penX scale segs).length) := by
  constructor
  · intro c hc
    exact (TextOutlines_ok_inv h c hc).2.1
  · intro pts penX scale segs hne
    rcases flatten_cases pts penX scale segs with hnil | ⟨h4, _⟩
    · exact absurd hnil hne
    · exact h4

/-- C1: when a run produces contours, TextOutlines returns the raw
layout translated by the computeAlign shift, whose horizontal part is
0 for left, the negated centered ink midpoint for center, and the
negated total layout advance times the scale for right. -/
theorem c1_halign_translation (p : ParsedFont) (f : Font) (s : List Char) (opt : Options)
    (hf : p.ttFont = some f)
    (hsz : ¬ opt.size ≤ 0)
    (hsp : ¬ (normOpt opt).spacing < 0)
    (hne : (textLayout p f s (normOpt opt) (scaleOf p f (normOpt opt).size)).1 ≠ []) :
    ∃ mnX mnY mxX mxY,
      boundsOf (textLayout p f s (normOpt opt) (scaleOf p f (normOpt opt).size)).1 =
        some (mnX, mnY, mxX, mxY) ∧
      (computeAlign (normOpt opt) mnX mnY mxX mxY
          ((textLayout p f s (normOpt opt) (scaleOf p f (normOpt opt).size)).2 *
            scaleOf p f (normOpt opt).size)).1 =
        (match opt.align.hAlign with
          | HAlign.left => 0
          | HAlign.center => -(mnX + (mxX - mnX) / 2)
          | HAlign.right =>
            -((textLayout p f s (normOpt opt) (scaleOf p f (normOpt opt).size)).2 *
              scaleOf p f (normOpt opt).size)) ∧
      TextOutlines (some p) s opt =
        .ok (translateOutlines
          (computeAlign (normOpt opt) mnX mnY mxX mxY
            ((textLayout p f s (normOpt opt) (scaleOf p f (normOpt opt).size)).2 *
              scaleOf p f (normOpt opt).size)).1
          (computeAlign (normOpt opt) mnX mnY mxX mxY
            ((textLayout p f s (normOpt opt) (scaleOf p f (normOpt opt).size)).2 *
              scaleOf p f (normOpt opt).size)).2
          (textLayout p f s (normOpt opt) (scaleOf p f (normOpt opt).size)).1) := by
  have hflat : (textLayout p f s (normOpt opt) (scaleOf p f (normOpt opt).size)).1.flatten ≠ [] :=
    flatten_ne_nil_of_good hne (textLayout_outlines_inv _ _ _ _ _)
  obtain ⟨q, rest, hqr⟩ : ∃ q rest,
      (textLayout p f s (normOpt opt) (scaleOf p f (normOpt opt).size)).1.flatten = q :: rest := by
    rcases hv : (textLayout p f s (normOpt opt) (scaleOf p f (normOpt opt).size)).1.flatten with
      _ | ⟨q, rest⟩
    · exact absurd hv hflat
    · exact ⟨q, rest, rfl⟩
  have hb : boundsOf (textLayout p f s (normOpt opt) (scaleOf p f (normOpt opt).size)).1 =
      some (rest.foldl
        (fun b w => (min b.1 w.x, min b.2.1 w.y, max b.2.2.1 w.x, max b.2.2.2 w.y))
        (q.x, q.y, q.x, q.y)) := by
    rw [boundsOf, hqr]
  obtain ⟨mnX, mnY, mxX, mxY, hb'⟩ : ∃ a b c d,
      boundsOf (textLayout p f s (normOpt opt) (scaleOf p f (normOpt opt).size)).1 =
        some (a, b, c, d) := by
    refine ⟨_, _, _, _, hb⟩
  refine ⟨mnX, mnY, mxX, mxY, hb', ?_, ?_⟩
  · rw [computeAlign]
    simp only [normOpt_align]
    rcases opt.align.hAlign <;> rfl
  · rw [TextOutlines.eq_def]
    simp only []
    rw [hf]
    simp only []
    rw [if_neg hsz, if_neg hsp,
      if_neg (by
        intro hlen
        exact hne (List.length_eq_zero.mp hlen)),
      hb']

/-- C9: parseOS2TypoAscender never performs an out-of-bounds read (the
result is always `some`, never the `none` that models a slice-bounds
crash); a returned ok flag implies the value is positive; an absent
OS/2 tag in the directory yields (0, false); and a first-matching OS/2
record whose declared offset/length fails the bounds checks yields
(0, false). -/
theorem c9_parser_no_crash (d : List Nat) :
    (∃ r, parseOS2TypoAscender d = some r) ∧
    (∀ v, parseOS2TypoAscender d = some (v, true) → 0 < v) ∧
    ((∀ i, i < numTablesOf d → tagBytes d (12 + i * 16) ≠ some os2Tag) →
      parseOS2TypoAscender d = some (0, false)) ∧
    (∀ m off tlen, m < numTablesOf d →
      tagBytes d (12 + m * 16) = some os2Tag →
      (∀ k, k < m → tagBytes d (12 + k * 16) ≠ some os2Tag) →
      readU32 d (12 + m * 16 + 8) = some off →
      readU32 d (12 + m * 16 + 12) = some tlen →
      (d.length < off + tlen ∨ tlen < 70) →
      parseOS2TypoAscender d = some (0, false)) := by
  by_cases hd : d.length < 12
  · have hparse : parseOS2TypoAscender d = some (0, false) := by
      rw [parseOS2TypoAscender, if_pos hd]
    refine ⟨⟨_, hparse⟩, ?_, fun _ => hparse, fun _ _ _ _ _ _ _ _ _ => hparse⟩
    intro v hv
    rw [hparse] at hv
    rw [Option.some.injEq, Prod.mk.injEq] at hv
    exact absurd hv.2 (by simp)
  · obtain ⟨nt, hnt⟩ := readU16_some (d := d) (i := 4) (by omega)
    have hntof : numTablesOf d = nt := by
      rw [numTablesOf, hnt]
      rfl
    by_cases hguard : d.length < 12 + nt * 16
    · have hparse : parseOS2TypoAscender d = some (0, false) := by
        rw [parseOS2TypoAscender, if_neg hd, hnt]
        simp only []
        rw [if_pos hguard]
      refine ⟨⟨_, hparse⟩, ?_, fun _ => hparse, fun _ _ _ _ _ _ _ _ _ => hparse⟩
      intro v hv
      rw [hparse] at hv
      rw [Option.some.injEq, Prod.mk.injEq] at hv
      exact absurd hv.2 (by simp)
    · have hparse : parseOS2TypoAscender d = scanOS2 d nt 0 := by
        rw [parseOS2TypoAscender, if_neg hd, hnt]
        simp only []
        rw [if_neg hguard]
      refine ⟨?_, ?_, ?_, ?_⟩
      · rw [hparse]
        exact scanOS2_total d nt 0 (by omega)
      · intro v hv
        rw [hparse] at hv
        exact scanOS2_pos d nt 0 v hv
      · intro habs
        rw [hparse]
        exact scanOS2_absent d nt 0 (by omega)
          (fun k _ hk2 => habs k (by rw [hntof]; omega))
      · intro m off tlen hm htg habs hoff hlen hbad
        rw [hparse]
        exact scanOS2_badbounds d nt 0 m off tlen (by omega)
          (by rw [hntof] at hm; omega) (by omega)
          htg (fun k _ hk2 => habs k hk2) hoff hlen hbad

theorem c9_parser_no_crash_witness : parseOS2TypoAscender [] = some (0, false) :=
  (c9_parser_no_crash []).2.2.1 (fun i hi => by
    rw [numTablesOf] at hi
    simp [readU16] at hi)

theorem wEval : TextOutlines (some wParsed) ['A'] wOpt = .ok wOut := by
  norm_num [TextOutlines.eq_def, wParsed, wFont, wOpt, wGlyph, wOut, normOpt, scaleOf,
    textLayout, fallbackStep, kernAdj, glyphContoursToPolylines, contourSlices,
    flattenTrueTypeContour, startAnchor, walkLoop, stepPoint, toVec, flattenQuad,
    closeContour, boundsOf, computeAlign, translateOutlines, segsOf, Coord.mid,
    Coord.add, Coord.scale, TPoint.onCurve]
  norm_num [List.cons_ne_nil]

theorem c4_contour_closure_witness :
    ([⟨5/4, 0⟩, ⟨25/4, 0⟩, ⟨15/4, 35/4⟩, ⟨5/4, 0⟩] : Contour) ≠ [] ∧
      ([⟨5/4, 0⟩, ⟨25/4, 0⟩, ⟨15/4, 35/4⟩, ⟨5/4, 0⟩] : Contour).head? =
        ([⟨5/4, 0⟩, ⟨25/4, 0⟩, ⟨15/4, 35/4⟩, ⟨5/4, 0⟩] : Contour).getLast? :=
  (c4_contour_closure (some wParsed) ['A'] wOpt wOut wEval).1
    [⟨5/4, 0⟩, ⟨25/4, 0⟩, ⟨15/4, 35/4⟩, ⟨5/4, 0⟩] (by simp [wOut])

theorem c5_contour_min_size_witness :
    4 ≤ ([⟨5/4, 0⟩, ⟨25/4, 0⟩, ⟨15/4, 35/4⟩, ⟨5/4, 0⟩] : Contour).length :=
  (c5_contour_min_size (some wParsed) ['A'] wOpt wOut wEval).1
    [⟨5/4, 0⟩, ⟨25/4, 0⟩, ⟨15/4, 35/4⟩, ⟨5/4, 0⟩] (by simp [wOut])

theorem c1_halign_translation_witness :
    ∃ mnX mnY mxX mxY,
      boundsOf (textLayout wParsed wFont ['A'] (normOpt wOptR)
          (scaleOf wParsed wFont (normOpt wOptR).size)).1 =
        some (mnX, mnY, mxX, mxY) ∧
      (computeAlign (normOpt wOptR) mnX mnY mxX mxY
          ((textLayout wParsed wFont ['A'] (normOpt wOptR)
              (scaleOf wParsed wFont (normOpt wOptR).size)).2 *
            scaleOf wParsed wFont (normOpt wOptR).size)).1 =
        (match wOptR.align.hAlign with
          | HAlign.left => 0
          | HAlign.center => -(mnX + (mxX - mnX) / 2)
          | HAlign.right =>
            -((textLayout wParsed wFont ['A'] (normOpt wOptR)
                (scaleOf wParsed wFont (normOpt wOptR).size)).2 *
              scaleOf wParsed wFont (normOpt wOptR).size)) ∧
      TextOutlines (some wParsed) ['A'] wOptR =
        .ok (translateOutlines
          (computeAlign (normOpt wOptR) mnX mnY mxX mxY
            ((textLayout wParsed wFont ['A'] (normOpt wOptR)
                (scaleOf wParsed wFont (normOpt wOptR).size)).2 *
              scaleOf wParsed wFont (normOpt wOptR).size)).1
          (computeAlign (normOpt wOptR) mnX mnY mxX mxY
            ((textLayout wParsed wFont ['A'] (normOpt wOptR)
                (scaleOf wParsed wFont (normOpt wOptR).size)).2 *
              scaleOf wParsed wFont (normOpt wOptR).size)).2
          (textLayout wParsed wFont ['A'] (normOpt wOptR)
            (scaleOf wParsed wFont (normOpt wOptR).size)).1) :=
  c1_halign_translation wParsed wFont ['A'] wOptR rfl (by norm_num [wOptR])
    (by norm_num [normOpt, wOptR])
    (by
      norm_num [wParsed, wFont, wOptR, wGlyph, normOpt, scaleOf, textLayout,
        fallbackStep, kernAdj, glyphContoursToPolylines, contourSlices,
        flattenTrueTypeContour, startAnchor, walkLoop, stepPoint, toVec, flattenQuad,
        closeContour, segsOf, Coord.mid, Coord.add, Coord.scale, TPoint.onCurve]
      norm_num [List.cons_ne_nil])

end Textcurve
